import Mathlib

/-!
Verification development for the web-research aggregator of the
linkedin-post-generator repository (`src/linkedin_post/tools/web_research.py`).

The Python tool is shallowly embedded:
* Python `str` values become Lean `String`; character-level operations are
  written over `List Char` with structural recursion so that every definition
  is executable by the kernel.
* Python floats here only ever hold sums of `1.0` and `0.5`, which are exact
  in binary floating point; scores are therefore carried as exact half-point
  counts (`ℕ`, same ordering), with the score value itself exposed as `ℚ`.
* The external DuckDuckGo backend is an uninterpreted function
  `String → Except String (List (Option RawHit))`: an `Except.error` models a
  raised exception, a `none` list entry models a non-`dict` raw hit (skipped by
  the `isinstance(result, dict)` check).
* `datetime.now()` is the only remaining fallible effect inside `_run`'s
  `try` block; it is modelled as an explicit `Except String String` input, and
  its failure is what exercises the `except` (fallback) branch.
-/

/-! ## Definitions: the shallow embedding of `web_research.py` -/

/-- Python `str.lower()` restricted to the character map (per character). -/
def lowerCh (l : List Char) : List Char := l.map Char.toLower

/-- Python `str.split()` (split on whitespace runs, no empty pieces).
`acc` is the reversed current word. -/
def splitWsCh : List Char → List Char → List (List Char)
  | [], acc => if acc.isEmpty then [] else [acc.reverse]
  | c :: rest, acc =>
    if c.isWhitespace then
      if acc.isEmpty then splitWsCh rest [] else acc.reverse :: splitWsCh rest []
    else splitWsCh rest (c :: acc)

/-- Python `needle in hay` substring test on character lists. -/
def containsSeq (needle : List Char) : List Char → Bool
  | [] => needle.isEmpty
  | c :: rest => needle.isPrefixOf (c :: rest) || containsSeq needle rest

/-- Python `needle in hay` on strings. -/
def strContains (hay needle : String) : Bool := containsSeq needle.toList hay.toList

/-- Python `s.lower()` on strings. -/
def pyLower (s : String) : String := ⟨lowerCh s.toList⟩

/-- The topic word list: `topic.lower().split()` (kept as character lists). -/
def topicWords (topic : String) : List (List Char) := splitWsCh (lowerCh topic.toList) []

/-- The fixed bonus-keyword list of `_calculate_relevance`. -/
def bonus_keywords : List String :=
  ["2025", "2024", "2023", "trend", "growth", "increase", "statistics", "data", "report"]

/-- `WebResearchTool._calculate_relevance` (web_research.py lines 142-161), in
units of 0.5: the Python float accumulates `+1.0` per topic word occurring in
the lowercased content and `+0.5` per bonus keyword occurring (both exact in
binary floating point), so the float is exactly `relevance_half * 0.5` and has
the same ordering. An empty content scores 0 exactly. -/
def relevance_half (content topic : String) : ℕ :=
  if content = "" then 0
  else
    let content_lower := lowerCh content.toList
    let topic_words := splitWsCh (lowerCh topic.toList) []
    let base := topic_words.foldl
      (fun acc word => if containsSeq word content_lower then acc + 2 else acc) 0
    bonus_keywords.foldl
      (fun acc keyword => if containsSeq keyword.toList content_lower then acc + 1 else acc) base

/-- The relevance score itself, as the exact rational value of the Python
float computed by `_calculate_relevance`. -/
def calculate_relevance (content topic : String) : ℚ :=
  (relevance_half content topic : ℚ) / 2

/-- A raw backend hit: the dict shape produced by the DuckDuckGo search tool
with list output (the `.get(…, "")` defaults are already applied). -/
structure RawHit where
  title : String
  snippet : String
  link : String
  source : String := ""
  date : String := ""
deriving DecidableEq

/-- A formatted search result as built by `_search_web` / `_search_news`.
`relevance` is kept in half-point units (see `relevance_half`); Python's float
is exactly `relevance * 0.5` and has the same ordering. Web results leave
`source`/`date` at `""` (the Python web dict simply lacks those keys and no
code path reads them from a web result). -/
structure SearchResult where
  title : String
  content : String
  url : String
  source : String := ""
  date : String := ""
  type : String
  relevance : ℕ
deriving DecidableEq

/-- The search backend (`DuckDuckGoSearchResults.invoke`): a query string is
taken to either a raised exception (`Except.error`) or a list of raw hits,
where a `none` entry models a non-dict list element. -/
abbrev Backend := String → Except String (List (Option RawHit))

/-- Stable insertion of `x` into a descending-sorted list: `x` goes before
the first element `y` with `le y x`. -/
def insDesc {α : Type} (le : α → α → Bool) (x : α) : List α → List α
  | [] => [x]
  | y :: ys => if le y x then x :: y :: ys else y :: insDesc le x ys

/-- Stable descending sort by insertion, modelling Python's stable
`list.sort(key=…, reverse=True)` (with `le a b := key a ≤ key b`): the output
is descending in the key and ties keep their original relative order, which
determines the output uniquely, so any stable implementation is a faithful
model. -/
def sortDesc {α : Type} (le : α → α → Bool) (l : List α) : List α :=
  l.foldr (insDesc le) []

/-- The dict built for each raw web hit (web_research.py lines 100-106). -/
def formatWebHit (topic : String) (result : RawHit) : SearchResult :=
  { title := result.title
    content := result.snippet
    url := result.link
    type := "web_search"
    relevance := relevance_half result.snippet topic }

/-- `WebResearchTool._search_web` (lines 83-114): invoke the backend on the
general query and then on the expert query — both inside the one `try`, so an
exception from either call makes the whole function return `[]` — then
truncate the concatenated raw hit lists to `max_results`, format/score the
dict entries, sort by relevance descending (stably) and truncate again. -/
def search_web (backend : Backend) (topic : String) (max_results : ℕ) : List SearchResult :=
  match backend (topic ++ " trends 2024") with
  | .error _ => []
  | .ok results =>
    match backend (topic ++ " expert analysis insights") with
    | .error _ => []
    | .ok expert_results =>
      let all_results := ((results ++ expert_results).take max_results).filterMap
        (fun r => r.map (formatWebHit topic))
      (sortDesc (fun a b => a.relevance ≤ b.relevance) all_results).take max_results

/-- The dict built for each raw news hit (lines 126-134). -/
def formatNewsHit (topic : String) (result : RawHit) : SearchResult :=
  { title := result.title
    content := result.snippet
    url := result.link
    source := result.source
    date := result.date
    type := "news"
    relevance := relevance_half result.snippet topic }

/-- `WebResearchTool._search_news` (lines 116-140): one backend call, a raised
exception absorbed to `[]`, no truncation beyond the backend's own cap. -/
def search_news (backend : Backend) (topic : String) : List SearchResult :=
  match backend (topic ++ " latest news 2024") with
  | .error _ => []
  | .ok results => results.filterMap (fun r => r.map (formatNewsHit topic))

/-- The pipeline claim C1 asserts for `_search_web`: build a scored result for
every raw hit of both queries, concatenate, stable-sort descending by
relevance, and only then truncate to `max_results`. -/
def c1ClaimedPipeline (topic : String) (max_results : ℕ)
    (results expert_results : List (Option RawHit)) : List SearchResult :=
  (sortDesc (fun a b => a.relevance ≤ b.relevance)
    ((results ++ expert_results).filterMap (fun r => r.map (formatWebHit topic)))).take
    max_results

def c1LowHit : RawHit := { title := "t1", snippet := "nothing here", link := "u1" }

def c1HighHit : RawHit := { title := "t2", snippet := "ai trend growth 2024 data report", link := "u2" }

def c1Backend : Backend := fun q =>
  if q = "ai trends 2024" then .ok [some c1LowHit] else .ok [some c1HighHit]

def c2Hit : RawHit := { title := "good", snippet := "ai adoption growth", link := "https://example.com/a" }

def c2Backend : Backend := fun q =>
  if q = "ai trends 2024" then .ok [some c2Hit] else .error "rate limited"

/-- Python `content.split(". ")`: split on the literal two-character
separator, leftmost-first, non-overlapping. `acc` is the reversed current
piece. -/
def splitSentAux : List Char → List Char → List (List Char)
  | '.' :: ' ' :: rest, acc => acc.reverse :: splitSentAux rest []
  | c :: rest, acc => splitSentAux rest (c :: acc)
  | [], acc => [acc.reverse]

/-- Python `content.split(". ")` on strings. -/
def pySplitSent (s : String) : List String := (splitSentAux s.toList []).map (fun cs => ⟨cs⟩)

/-- Python `s.strip()` (trim surrounding whitespace). -/
def pyTrim (s : String) : String :=
  ⟨((s.toList.dropWhile Char.isWhitespace).reverse.dropWhile Char.isWhitespace).reverse⟩

/-- Python `s.rstrip('.')` (drop every trailing period). -/
def pyRstripDot (s : String) : String :=
  ⟨(s.toList.reverse.dropWhile (· = '.')).reverse⟩

/-- The fixed keyword list of `_extract_key_findings` (besides the topic). -/
def finding_keywords : List String :=
  ["trend", "growth", "increase", "innovation", "market", "adoption"]

/-- The per-sentence filter of `_extract_key_findings` (lines 173-175):
length over 30, and the lowercased sentence contains the lowercased topic or
one of the fixed keywords. -/
def sentenceQualifies (topic sentence : String) : Bool :=
  30 < sentence.length &&
    (pyLower topic :: finding_keywords).any (fun keyword => strContains (pyLower sentence) keyword)

/-- `sentence.strip().rstrip('.')` (line 176). -/
def cleanSentence (sentence : String) : String := pyRstripDot (pyTrim sentence)

/-- The inner sentence loop of `_extract_key_findings` (lines 172-180):
append each qualifying, cleaned, not-yet-collected sentence, and `break` out
of the sentence loop (only) once the findings list reaches six entries. -/
def findingsFromSentences (topic : String) : List String → List String → List String
  | [], findings => findings
  | sentence :: rest, findings =>
    if sentenceQualifies topic sentence then
      if cleanSentence sentence ∈ findings then findingsFromSentences topic rest findings
      else
        let found := findings ++ [cleanSentence sentence]
        if 6 ≤ found.length then found
        else findingsFromSentences topic rest found
    else findingsFromSentences topic rest findings

/-- `WebResearchTool._extract_key_findings` (lines 163-182): scan the first 8
results, skip any result whose content length is ≤ 50, split the content on
`". "`, collect findings sentence by sentence, and finally truncate to 6
(the `break` leaves the outer loop running, so the list can transiently
exceed six entries). -/
def extract_key_findings (results : List SearchResult) (topic : String) : List String :=
  let findings := (results.take 8).foldl
    (fun findings result =>
      if 50 < result.content.length then
        findingsFromSentences topic (pySplitSent result.content) findings
      else findings) []
  findings.take 6

/-- Left-to-right deduplication on top of `acc`: append each element unless
already present. -/
def dedupAppend (acc : List String) : List String → List String
  | [] => acc
  | c :: cs => if c ∈ acc then dedupAppend acc cs else dedupAppend (acc ++ [c]) cs

/-- The cleaned qualifying sentence stream, in scan order, restricted — as
the code is — to the first 8 results and to results whose content length
exceeds 50. -/
def qualifyingCleans (results : List SearchResult) (topic : String) : List String :=
  (results.take 8).flatMap (fun r =>
    if 50 < r.content.length then
      ((pySplitSent r.content).filter (sentenceQualifies topic)).map cleanSentence
    else [])

def c4Result : SearchResult :=
  { title := "t"
    content := "the market trend keeps on growing!!"
    url := "u"
    type := "web_search"
    relevance := 0 }

/-- The punctuation set of `word.strip(".,!?()[]{}\"'-")` (line 193);
`\x7b`, `\x7d`, `\x22` and `\x27` are the two braces, the double quote and
the apostrophe. -/
def strip_chars : List Char :=
  ['.', ',', '!', '?', '(', ')', '[', ']', '\x7b', '\x7d', '\x22', '\x27', '-']

/-- Python `word.strip(".,!?()[]{}\"'-")`: drop the punctuation characters
from both ends. -/
def stripPunct (w : List Char) : List Char :=
  ((w.dropWhile (· ∈ strip_chars)).reverse.dropWhile (· ∈ strip_chars)).reverse

/-- The fixed stopword exclusion list (lines 196-197). -/
def stopwords : List String :=
  ["this", "that", "with", "from", "they", "have", "been",
   "will", "would", "could", "should", "there", "their", "where"]

/-- The keep condition of `_extract_trending_keywords` (lines 194-197):
length over 4, purely alphabetic, not a stopword. (Python's `isalpha` is
false on `""`, but the length test already excludes the empty token, so
`List.all` over the characters is equivalent.) -/
def keepToken (w : String) : Bool :=
  4 < w.length && w.toList.all Char.isAlpha && decide (w ∉ stopwords)

/-- The token stream of `_extract_trending_keywords` (lines 188-197): for
each result lowercase `f"{title} {content}"`, split on whitespace, strip
punctuation from each word, and keep the tokens passing `keepToken`. -/
def keptTokens (results : List SearchResult) : List String :=
  (results.flatMap (fun result =>
    (splitWsCh (lowerCh (result.title ++ " " ++ result.content).toList) []).map
      (fun w => (⟨stripPunct w⟩ : String)))).filter keepToken

/-- One `keyword_counts[word] = keyword_counts.get(word, 0) + 1` update on
the insertion-ordered dict, modelled as an association list: increment the
existing entry in place, or append a fresh entry at the end. -/
def bump (counts : List (String × ℕ)) (w : String) : List (String × ℕ) :=
  if w ∈ counts.map Prod.fst then
    counts.map (fun p => if p.1 = w then (p.1, p.2 + 1) else p)
  else counts ++ [(w, 1)]

/-- `WebResearchTool._extract_trending_keywords` (lines 184-202): tally the
kept tokens into the insertion-ordered dict, sort the pairs by count
descending (Python's `sorted(..., key=…, reverse=True)` is stable), and
return the keys of the top 10. -/
def extract_trending_keywords (results : List SearchResult) : List String :=
  let keyword_counts := (keptTokens results).foldl bump []
  let sorted_keywords := sortDesc (fun a b => a.2 ≤ b.2) keyword_counts
  (sorted_keywords.take 10).map Prod.fst

/-- Python `sep.join(parts)`. -/
def joinWith (sep : String) : List String → String
  | [] => ""
  | [a] => a
  | a :: rest => a ++ sep ++ joinWith sep rest

/-- `WebResearchTool._generate_summary` (lines 204-226): header line, count
bullets for nonempty result lists, theme bullets for the literal substrings
"growth" / "innovation" / "adoption" in the concatenated content, closing
line; joined with newlines. -/
def generate_summary (web_results news_results : List SearchResult) (topic : String) : String :=
  let summary_parts := ["Research Summary for '" ++ topic ++ "':\n"]
  let summary_parts := if web_results ≠ [] then
      summary_parts ++ ["• Found " ++ toString web_results.length ++
        " relevant web sources with insights on " ++ topic]
    else summary_parts
  let summary_parts := if news_results ≠ [] then
      summary_parts ++ ["• Discovered " ++ toString news_results.length ++
        " recent news articles covering latest developments"]
    else summary_parts
  let all_content := joinWith " " ((web_results ++ news_results).map (fun r => r.content))
  let summary_parts := if strContains (pyLower all_content) "growth" then
      summary_parts ++ ["• Market growth and expansion trends identified"]
    else summary_parts
  let summary_parts := if strContains (pyLower all_content) "innovation" then
      summary_parts ++ ["• Innovation and technological advancements noted"]
    else summary_parts
  let summary_parts := if strContains (pyLower all_content) "adoption" then
      summary_parts ++ ["• Adoption patterns and user engagement insights found"]
    else summary_parts
  let summary_parts := summary_parts ++ ["\nThe research indicates " ++ topic ++
    " is an active area with substantial industry interest and ongoing developments."]
  joinWith "\n" summary_parts

/-- Set-insert on the insertion-ordered model of Python's `set` (a Python
set iterates in an unspecified order; the model fixes first-insertion
order, one valid realisation). -/
def insertSet (s : List String) (x : String) : List String :=
  if x ∈ s then s else s ++ [x]

/-- `WebResearchTool._get_unique_sources` (lines 228-243). `netloc` models
the external `urllib.parse.urlparse(url).netloc` call: `none` models a
raised parse exception (absorbed by adding the raw url instead), `some d`
the parsed network location, possibly `""` (then nothing is added). -/
def get_unique_sources (netloc : String → Option String)
    (results : List SearchResult) : List String :=
  let sources := results.foldl (fun sources result =>
    if result.url ≠ "" then
      match netloc result.url with
      | some domain => if domain ≠ "" then insertSet sources domain else sources
      | none => insertSet sources result.url
    else sources) []
  sources.take 10

/-- The dict returned by `_generate_fallback_insights` (lines 245-255). -/
structure FallbackInsights where
  general_insights : List String
  trending_themes : List String
  note : String
deriving DecidableEq

/-- `WebResearchTool._generate_fallback_insights` (lines 245-255). -/
def generate_fallback_insights (topic : String) : FallbackInsights :=
  { general_insights :=
      [topic ++ " is an emerging field with significant potential",
       "Industry adoption of " ++ topic ++ " is accelerating",
       "Key players are investing heavily in " ++ topic ++ " development"]
    trending_themes := ["innovation", "growth", "adoption", "technology", "market"]
    note := "These are general insights due to search limitations. For accurate information, please verify with current sources." }

/-- The successful research report dict (lines 57-72): `web_count` and
`news_count` are the `count` sub-fields. -/
structure ResearchData where
  topic : String
  search_performed_at : String
  web_count : ℕ
  web_results : List SearchResult
  news_count : ℕ
  news_results : List SearchResult
  key_findings : List String
  trending_keywords : List String
  summary : String
  sources : List String
deriving DecidableEq

/-- The two possible outputs of `_run`: the serialised research report, or
the serialised fallback payload `{error, topic, fallback_insights}`. -/
inductive RunResult where
  | report (data : ResearchData)
  | fallback (error : String) (topic : String) (insights : FallbackInsights)
deriving DecidableEq

/-- `WebResearchTool._run` (lines 38-81): search web and news (each
absorbing its own backend failures), then assemble the report. `clock`
models the `datetime.now().isoformat()` call, the one fallible step left
inside the `try` block in this embedding; when it raises, the `except`
branch produces the fallback payload with the formatted error message. -/
def run (webBackend newsBackend : Backend) (netloc : String → Option String)
    (clock : Except String String) (topic : String) (max_results : ℕ) : RunResult :=
  let web_results := search_web webBackend topic max_results
  let news_results := search_news newsBackend topic
  match clock with
  | .error e => .fallback ("Web search failed: " ++ e) topic (generate_fallback_insights topic)
  | .ok now =>
      .report
        { topic := topic
          search_performed_at := now
          web_count := web_results.length
          web_results := web_results
          news_count := news_results.length
          news_results := news_results
          key_findings := extract_key_findings (web_results ++ news_results) topic
          trending_keywords := extract_trending_keywords (web_results ++ news_results)
          summary := generate_summary web_results news_results topic
          sources := get_unique_sources netloc (web_results ++ news_results) }

def RunResult.isReport : RunResult → Bool
  | .report _ => true
  | .fallback _ _ _ => false

def RunResult.isFallback : RunResult → Bool
  | .report _ => false
  | .fallback _ _ _ => true

/-- A minimal JSON value model, for stating field-shape claims about the
serialised payloads. -/
inductive JVal where
  | str (s : String)
  | arr (items : List JVal)
  | obj (fields : List (String × JVal))

/-- The field names of a JSON object. -/
def JVal.objKeys : JVal → List String
  | .obj fields => fields.map Prod.fst
  | _ => []

/-- The JSON shape of the `_generate_fallback_insights` dict. -/
def insightsToJson (fi : FallbackInsights) : JVal :=
  .obj [("general_insights", .arr (fi.general_insights.map JVal.str)),
        ("trending_themes", .arr (fi.trending_themes.map JVal.str)),
        ("note", .str fi.note)]

/-- The JSON shape of the dict serialised by the `except` branch of `_run`
(lines 77-81). -/
def fallbackToJson (error topic : String) (fi : FallbackInsights) : JVal :=
  .obj [("error", .str error), ("topic", .str topic),
        ("fallback_insights", insightsToJson fi)]

def failBackend : Backend := fun _ => .error "boom"

/-! ## Theorems -/

example : relevance_half "" "ai" = 0 := by decide

example : relevance_half "ai growth in 2024" "AI" = 2 + 1 + 1 := by decide

example : (topicWords "Multi agent AI").length = 3 := by decide

theorem foldl_if_add_eq {α : Type} (p : α → Bool) (k : ℕ) (l : List α) :
    ∀ init : ℕ,
      l.foldl (fun acc x => if p x then acc + k else acc) init = init + k * l.countP p := by
  induction l with
  | nil => simp
  | cons a l ih =>
    intro init
    by_cases h : p a
    · simp only [List.foldl, List.countP_cons, h, ih, if_true]
      ring
    · simp [List.foldl, List.countP_cons, h, ih]

theorem splitWsCh_ne_nil (l : List Char) :
    ∀ acc : List Char, ∀ w ∈ splitWsCh l acc, w ≠ [] := by
  induction l with
  | nil =>
    intro acc w hw
    by_cases h : acc.isEmpty <;> simp [splitWsCh, h] at hw
    subst hw
    simpa [List.isEmpty_iff] using h
  | cons c rest ih =>
    intro acc w hw
    by_cases hws : c.isWhitespace
    · by_cases h : acc.isEmpty
      · exact ih [] w (by simpa [splitWsCh, hws, h] using hw)
      · simp [splitWsCh, hws, h] at hw
        rcases hw with hw | hw
        · subst hw
          simpa [List.isEmpty_iff] using h
        · exact ih [] w hw
    · exact ih (c :: acc) w (by simpa [splitWsCh, hws] using hw)

theorem topicWords_ne_nil (topic : String) : ∀ w ∈ topicWords topic, w ≠ [] :=
  splitWsCh_ne_nil _ []

/-- Closed form of the raw half-point score on a nonempty content. -/
theorem relevance_half_eq (content topic : String) (h : content ≠ "") :
    relevance_half content topic =
      2 * (topicWords topic).countP (fun w => containsSeq w (lowerCh content.toList)) +
        bonus_keywords.countP (fun kw => containsSeq kw.toList (lowerCh content.toList)) := by
  rw [relevance_half, if_neg h, foldl_if_add_eq, foldl_if_add_eq, topicWords]
  ring

/-- C6: if the snippet contains every lowercased topic word as a substring of
its lowercased self, the relevance score is at least the number of topic
words. -/
theorem c6_relevance_lower_bound (content topic : String)
    (h : ∀ w ∈ topicWords topic, containsSeq w (lowerCh content.toList) = true) :
    ((topicWords topic).length : ℚ) ≤ calculate_relevance content topic := by
  by_cases hc : content = ""
  · subst hc
    have hnil : topicWords topic = [] := by
      cases hw : topicWords topic with
      | nil => rfl
      | cons w ws =>
        exfalso
        have h1 : containsSeq w (lowerCh "".toList) = true := h w (by rw [hw]; exact List.mem_cons_self _ _)
        have h2 : w ≠ [] := topicWords_ne_nil topic w (by rw [hw]; exact List.mem_cons_self _ _)
        have : w.isEmpty = true := by simpa [lowerCh, containsSeq] using h1
        exact h2 (by simpa [List.isEmpty_iff] using this)
    simp [hnil, calculate_relevance, relevance_half]
  · have hcount : (topicWords topic).countP (fun w => containsSeq w (lowerCh content.toList)) =
        (topicWords topic).length := by
      rw [List.countP_eq_length]
      intro w hw
      exact h w hw
    have hval := relevance_half_eq content topic hc
    rw [hcount] at hval
    rw [calculate_relevance, hval]
    rw [le_div_iff₀ (by norm_num : (0:ℚ) < 2)]
    push_cast
    have := bonus_keywords.countP_le_length
      (p := fun kw => containsSeq kw.toList (lowerCh content.toList))
    have hnn : (0:ℚ) ≤
        (bonus_keywords.countP (fun kw => containsSeq kw.toList (lowerCh content.toList)) : ℚ) :=
      Nat.cast_nonneg _
    linarith

theorem c6_witness :
    (∀ w ∈ topicWords "AI growth",
        containsSeq w (lowerCh "rapid ai growth ahead".toList) = true) ∧
      ((topicWords "AI growth").length : ℚ) ≤
        calculate_relevance "rapid ai growth ahead" "AI growth" :=
  ⟨by decide, c6_relevance_lower_bound "rapid ai growth ahead" "AI growth" (by decide)⟩

/-- C10: every relevance score is a non-negative integer multiple of 0.5 and
is at most the number of topic words plus 4.5, i.e. plus 0.5 for each of the
nine bonus keywords. -/
theorem c10_relevance_bounds (content topic : String) :
    0 ≤ calculate_relevance content topic ∧
      calculate_relevance content topic ≤ ((topicWords topic).length : ℚ) + 9 / 2 ∧
      (∃ n : ℕ, calculate_relevance content topic = (n : ℚ) / 2) ∧
      bonus_keywords.length = 9 := by
  refine ⟨by rw [calculate_relevance]; positivity, ?_, ⟨relevance_half content topic, rfl⟩, rfl⟩
  by_cases hc : content = ""
  · have h0 : relevance_half content topic = 0 := by rw [relevance_half, if_pos hc]
    rw [calculate_relevance, h0]
    simp
    positivity
  · have hval := relevance_half_eq content topic hc
    have h1 : (topicWords topic).countP (fun w => containsSeq w (lowerCh content.toList)) ≤
        (topicWords topic).length := List.countP_le_length _
    have h2 : bonus_keywords.countP (fun kw => containsSeq kw.toList (lowerCh content.toList)) ≤ 9 := by
      have := List.countP_le_length
        (l := bonus_keywords) (p := fun kw => containsSeq kw.toList (lowerCh content.toList))
      simpa using this
    rw [calculate_relevance, hval]
    rw [div_le_iff₀ (by norm_num : (0:ℚ) < 2)]
    push_cast
    have hq1 : ((topicWords topic).countP (fun w => containsSeq w (lowerCh content.toList)) : ℚ) ≤
        ((topicWords topic).length : ℚ) := by exact_mod_cast h1
    have hq2 : ((bonus_keywords.countP
        (fun kw => containsSeq kw.toList (lowerCh content.toList))) : ℚ) ≤ 9 := by exact_mod_cast h2
    linarith

/-- C1 is false on the code: the code truncates the concatenated raw hits to
`max_results` *before* scoring and sorting (line 98, `[:max_results]`), so a
high-relevance hit of the second query is discarded in favour of a
low-relevance hit of the first. -/
theorem c1_counterexample :
    c1Backend ("ai" ++ " trends 2024") = .ok [some c1LowHit] ∧
      c1Backend ("ai" ++ " expert analysis insights") = .ok [some c1HighHit] ∧
      search_web c1Backend "ai" 1 = [formatWebHit "ai" c1LowHit] ∧
      c1ClaimedPipeline "ai" 1 [some c1LowHit] [some c1HighHit] =
        [formatWebHit "ai" c1HighHit] ∧
      search_web c1Backend "ai" 1 ≠ c1ClaimedPipeline "ai" 1 [some c1LowHit] [some c1HighHit] := by
  refine ⟨rfl, rfl, by decide, by decide, by decide⟩

/-- C1 amended: when both web queries succeed, `web_results` is obtained by
first truncating the concatenation of the two raw hit lists to `max_results`,
then building a scored `SearchResult` for each dict hit kept, sorting the
scored list descending by relevance with a stable sort, and truncating again
(a no-op at that point); raw hits beyond the first `max_results` of the
concatenation are discarded before scoring. -/
theorem c1_amended (backend : Backend) (topic : String) (max_results : ℕ)
    (results expert_results : List (Option RawHit))
    (h1 : backend (topic ++ " trends 2024") = .ok results)
    (h2 : backend (topic ++ " expert analysis insights") = .ok expert_results) :
    search_web backend topic max_results =
      (sortDesc (fun a b => a.relevance ≤ b.relevance)
        (((results ++ expert_results).take max_results).filterMap
          (fun r => r.map (formatWebHit topic)))).take max_results := by
  simp only [search_web, h1, h2]

theorem c1_amended_witness :
    search_web c1Backend "ai" 1 =
      (sortDesc (fun a b => a.relevance ≤ b.relevance)
        ((([some c1LowHit] ++ [some c1HighHit]).take 1).filterMap
          (fun r => r.map (formatWebHit "ai")))).take 1 :=
  c1_amended c1Backend "ai" 1 [some c1LowHit] [some c1HighHit] rfl rfl

/-- C2 is false on the code: both web queries live inside the same `try`
block of `_search_web`, so when the expert query raises, the hits the general
query already returned are discarded too and `web_results` is empty. -/
theorem c2_counterexample :
    c2Backend ("ai" ++ " trends 2024") = .ok [some c2Hit] ∧
      c2Backend ("ai" ++ " expert analysis insights") = .error "rate limited" ∧
      search_web c2Backend "ai" 5 = [] ∧
      formatWebHit "ai" c2Hit ∉ search_web c2Backend "ai" 5 := by
  refine ⟨rfl, rfl, by decide, by decide⟩

/-- C2 amended: if the backend raises on either of the two web queries, the
entire `web_results` list is empty — the surviving query's hits are discarded
along with the failing query's (the failure is still absorbed rather than
propagated, and news results are unaffected since `_search_news` makes its
own backend call). -/
theorem c2_amended (backend : Backend) (topic : String) (max_results : ℕ)
    (h : (∃ e, backend (topic ++ " trends 2024") = .error e) ∨
      (∃ e, backend (topic ++ " expert analysis insights") = .error e)) :
    search_web backend topic max_results = [] := by
  rcases h with ⟨e, he⟩ | ⟨e, he⟩
  · simp only [search_web, he]
  · cases hg : backend (topic ++ " trends 2024") with
    | error e2 => simp only [search_web, hg]
    | ok results => simp only [search_web, hg, he]

theorem c2_amended_witness : search_web c2Backend "ai" 5 = [] :=
  c2_amended c2Backend "ai" 5 (Or.inr ⟨"rate limited", rfl⟩)

theorem dedupAppend_suffix (l : List String) :
    ∀ acc : List String, ∃ t, dedupAppend acc l = acc ++ t := by
  induction l with
  | nil => intro acc; exact ⟨[], by simp [dedupAppend]⟩
  | cons c cs ih =>
    intro acc
    by_cases h : c ∈ acc
    · obtain ⟨t, ht⟩ := ih acc
      exact ⟨t, by simp [dedupAppend, h, ht]⟩
    · obtain ⟨t, ht⟩ := ih (acc ++ [c])
      exact ⟨[c] ++ t, by simp [dedupAppend, h, ht]⟩

theorem dedupAppend_take_of_le (l : List String) (acc : List String) (h : 6 ≤ acc.length) :
    (dedupAppend acc l).take 6 = acc.take 6 := by
  obtain ⟨t, ht⟩ := dedupAppend_suffix l acc
  rw [ht, List.take_append_of_le_length h]

theorem dedupAppend_append (l₁ l₂ : List String) :
    ∀ acc, dedupAppend acc (l₁ ++ l₂) = dedupAppend (dedupAppend acc l₁) l₂ := by
  induction l₁ with
  | nil => intro acc; simp [dedupAppend]
  | cons c cs ih =>
    intro acc
    by_cases h : c ∈ acc <;> simp [dedupAppend, h, ih]

theorem dedupAppend_nodup (l : List String) :
    ∀ acc, acc.Nodup → (dedupAppend acc l).Nodup := by
  induction l with
  | nil => intro acc h; simpa [dedupAppend] using h
  | cons c cs ih =>
    intro acc h
    by_cases hm : c ∈ acc
    · simpa [dedupAppend, hm] using ih acc h
    · have hn : (acc ++ [c]).Nodup := by
        rw [List.nodup_append]
        refine ⟨h, List.nodup_singleton c, ?_⟩
        intro a ha hac
        exact hm ((List.mem_singleton.mp hac) ▸ ha)
      simpa [dedupAppend, hm] using ih (acc ++ [c]) hn

theorem findingsFromSentences_take (topic : String) (sentences : List String) :
    ∀ findings,
      (findingsFromSentences topic sentences findings).take 6 =
        (dedupAppend findings
          ((sentences.filter (sentenceQualifies topic)).map cleanSentence)).take 6 := by
  induction sentences with
  | nil => intro findings; simp [findingsFromSentences, dedupAppend]
  | cons sentence rest ih =>
    intro findings
    by_cases hq : sentenceQualifies topic sentence
    · by_cases hm : cleanSentence sentence ∈ findings
      · simpa [findingsFromSentences, hq, hm, dedupAppend] using ih findings
      · by_cases hlen : 6 ≤ (findings ++ [cleanSentence sentence]).length
        · simp only [findingsFromSentences, hq, hm, if_true, if_false, hlen,
            List.filter_cons_of_pos, List.map_cons, dedupAppend, if_neg hm]
          rw [dedupAppend_take_of_le _ _ hlen]
        · simp only [findingsFromSentences, hq, hm, if_true, if_false, hlen,
            List.filter_cons_of_pos, List.map_cons, dedupAppend, if_neg hm]
          exact ih (findings ++ [cleanSentence sentence])
    · simpa [findingsFromSentences, hq, List.filter_cons_of_neg, dedupAppend] using ih findings

theorem findingsFromSentences_eq_of_lt (topic : String) (sentences : List String) :
    ∀ findings, (findingsFromSentences topic sentences findings).length < 6 →
      findingsFromSentences topic sentences findings =
        dedupAppend findings ((sentences.filter (sentenceQualifies topic)).map cleanSentence) := by
  induction sentences with
  | nil => intro findings _; simp [findingsFromSentences, dedupAppend]
  | cons sentence rest ih =>
    intro findings hlt
    by_cases hq : sentenceQualifies topic sentence
    · by_cases hm : cleanSentence sentence ∈ findings
      · rw [findingsFromSentences, if_pos hq, if_pos hm] at hlt ⊢
        simpa [List.filter_cons_of_pos, hq, dedupAppend, hm] using ih findings hlt
      · by_cases hlen : 6 ≤ (findings ++ [cleanSentence sentence]).length
        · exfalso
          rw [findingsFromSentences, if_pos hq, if_neg hm] at hlt
          simp only [if_pos hlen] at hlt
          omega
        · rw [findingsFromSentences, if_pos hq, if_neg hm] at hlt ⊢
          simp only [if_neg hlen] at hlt ⊢
          simpa [List.filter_cons_of_pos, hq, dedupAppend, hm]
            using ih (findings ++ [cleanSentence sentence]) hlt
    · rw [findingsFromSentences, if_neg hq] at hlt ⊢
      simpa [List.filter_cons_of_neg, hq, dedupAppend] using ih findings hlt

theorem foldl_findings_take (topic : String) (rs : List SearchResult) :
    ∀ findings,
      (rs.foldl (fun findings result =>
          if 50 < result.content.length then
            findingsFromSentences topic (pySplitSent result.content) findings
          else findings) findings).take 6 =
        (dedupAppend findings (rs.flatMap (fun r =>
          if 50 < r.content.length then
            ((pySplitSent r.content).filter (sentenceQualifies topic)).map cleanSentence
          else []))).take 6 := by
  induction rs with
  | nil => intro findings; simp [dedupAppend]
  | cons r rs ih =>
    intro findings
    simp only [List.foldl_cons, List.flatMap_cons, dedupAppend_append]
    by_cases hc : 50 < r.content.length
    · simp only [if_pos hc]
      rw [ih]
      by_cases hlt : (findingsFromSentences topic (pySplitSent r.content) findings).length < 6
      · rw [findingsFromSentences_eq_of_lt topic _ findings hlt]
      · have htake := findingsFromSentences_take topic (pySplitSent r.content) findings
        have hlenA : 6 ≤ (findingsFromSentences topic (pySplitSent r.content) findings).length :=
          Nat.le_of_not_lt hlt
        have hlenB : 6 ≤ (dedupAppend findings
            (((pySplitSent r.content).filter (sentenceQualifies topic)).map
              cleanSentence)).length := by
          have h1 : ((findingsFromSentences topic (pySplitSent r.content) findings).take 6).length
              = 6 := by
            rw [List.length_take]; omega
          rw [htake, List.length_take] at h1
          omega
        rw [dedupAppend_take_of_le _ _ hlenA, dedupAppend_take_of_le _ _ hlenB, htake]
    · simp only [if_neg hc]
      rw [ih]
      simp [dedupAppend]

/-- The closed form of `_extract_key_findings`: the first six distinct
cleaned qualifying sentences, in scan order. -/
theorem extract_key_findings_eq (results : List SearchResult) (topic : String) :
    extract_key_findings results topic =
      (dedupAppend [] (qualifyingCleans results topic)).take 6 := by
  show ((results.take 8).foldl _ []).take 6 = _
  rw [foldl_findings_take topic (results.take 8) [], qualifyingCleans]

/-- C7: for every input result list and topic, the extracted key findings
number at most six and contain no duplicate strings. -/
theorem c7_key_findings_bounded_nodup (results : List SearchResult) (topic : String) :
    (extract_key_findings results topic).length ≤ 6 ∧
      (extract_key_findings results topic).Nodup := by
  rw [extract_key_findings_eq]
  exact ⟨List.length_take_le 6 _,
    (List.take_sublist 6 _).nodup (dedupAppend_nodup _ [] List.nodup_nil)⟩

/-- C4 is false on the code: `_extract_key_findings` also requires the
result's *overall* content length to exceed 50 (line 169) before any
sentence of it is considered. `c4Result.content` is its own single fragment,
35 characters long, qualifies (length over 30, contains "trend" and
"market"), yet is not kept because the whole content is ≤ 50 characters. -/
theorem c4_counterexample :
    pySplitSent c4Result.content = [c4Result.content] ∧
      sentenceQualifies "ai" c4Result.content = true ∧
      cleanSentence c4Result.content = c4Result.content ∧
      ¬ (50 < c4Result.content.length) ∧
      extract_key_findings [c4Result] "ai" = [] ∧
      cleanSentence c4Result.content ∉ extract_key_findings [c4Result] "ai" := by
  refine ⟨by decide, by decide, by decide, by decide, by decide, by decide⟩

/-- C4 amended: among the first 8 results, *for results whose overall content
length exceeds 50 characters*, every fragment obtained by splitting the
content on `". "` that is longer than 30 characters and contains
(case-insensitively) the topic or one of the fixed keywords is kept — trimmed
and with trailing periods removed, duplicates skipped, stopping at 6; results
with content length ≤ 50 contribute nothing. -/
theorem c4_amended_key_findings (results : List SearchResult) (topic : String) :
    extract_key_findings results topic =
      (dedupAppend [] (qualifyingCleans results topic)).take 6 :=
  extract_key_findings_eq results topic

theorem insDesc_perm {α : Type} (le : α → α → Bool) (x : α) (l : List α) :
    (insDesc le x l).Perm (x :: l) := by
  induction l with
  | nil => simp [insDesc]
  | cons y ys ih =>
    by_cases h : le y x
    · simp [insDesc, h]
    · rw [insDesc, if_neg h]
      exact (ih.cons y).trans (List.Perm.swap x y ys)

theorem sortDesc_perm {α : Type} (le : α → α → Bool) (l : List α) :
    (sortDesc le l).Perm l := by
  induction l with
  | nil => simp [sortDesc]
  | cons x xs ih =>
    show (insDesc le x (sortDesc le xs)).Perm (x :: xs)
    exact (insDesc_perm le x (sortDesc le xs)).trans (ih.cons x)

theorem insDesc_pairwise {α : Type} (le : α → α → Bool)
    (htr : ∀ a b c, le a b = true → le b c = true → le a c = true)
    (hto : ∀ a b, le a b = true ∨ le b a = true)
    (x : α) (l : List α) (h : l.Pairwise (fun a b => le b a = true)) :
    (insDesc le x l).Pairwise (fun a b => le b a = true) := by
  induction l with
  | nil => simp [insDesc]
  | cons y ys ih =>
    rcases List.pairwise_cons.mp h with ⟨hy, hys⟩
    by_cases hle : le y x
    · rw [insDesc, if_pos hle]
      refine List.pairwise_cons.mpr ⟨?_, h⟩
      intro z hz
      rcases List.mem_cons.mp hz with rfl | hz
      · exact hle
      · exact htr z y x (hy z hz) hle
    · rw [insDesc, if_neg hle]
      refine List.pairwise_cons.mpr ⟨?_, ih hys⟩
      intro z hz
      rcases List.mem_cons.mp ((insDesc_perm le x ys).mem_iff.mp hz) with rfl | hz
      · rcases hto y z with hyz | hzy
        · exact absurd hyz hle
        · exact hzy
      · exact hy z hz

theorem sortDesc_pairwise {α : Type} (le : α → α → Bool)
    (htr : ∀ a b c, le a b = true → le b c = true → le a c = true)
    (hto : ∀ a b, le a b = true ∨ le b a = true) (l : List α) :
    (sortDesc le l).Pairwise (fun a b => le b a = true) := by
  induction l with
  | nil => simp [sortDesc]
  | cons x xs ih => exact insDesc_pairwise le htr hto x (sortDesc le xs) ih

theorem insDesc_filter_key {α : Type} (k : α → ℕ) (x : α) (l : List α) (c : ℕ) :
    (insDesc (fun a b => k a ≤ k b) x l).filter (fun a => k a = c) =
      if k x = c then x :: l.filter (fun a => k a = c)
      else l.filter (fun a => k a = c) := by
  induction l with
  | nil => by_cases h : k x = c <;> simp [insDesc, h]
  | cons y ys ih =>
    by_cases hle : k y ≤ k x
    · rw [insDesc, if_pos (decide_eq_true hle)]
      by_cases h : k x = c <;> simp [List.filter_cons, h]
    · rw [insDesc, if_neg (by simpa using hle)]
      by_cases h : k x = c
      · have hyne : ¬ (k y = c) := by omega
        simp [List.filter_cons, h, hyne, ih]
      · by_cases hy : k y = c <;> simp [List.filter_cons, h, hy, ih]

theorem sortDesc_filter_key {α : Type} (k : α → ℕ) (l : List α) (c : ℕ) :
    (sortDesc (fun a b => k a ≤ k b) l).filter (fun a => k a = c) =
      l.filter (fun a => k a = c) := by
  induction l with
  | nil => simp [sortDesc]
  | cons x xs ih =>
    show ((insDesc (fun a b => k a ≤ k b) x (sortDesc _ xs)).filter _) = _
    rw [insDesc_filter_key]
    by_cases h : k x = c <;> simp [h, List.filter_cons, ih]

theorem bump_keys (counts : List (String × ℕ)) (w : String) :
    (bump counts w).map Prod.fst =
      if w ∈ counts.map Prod.fst then counts.map Prod.fst
      else counts.map Prod.fst ++ [w] := by
  by_cases h : w ∈ counts.map Prod.fst
  · rw [bump, if_pos h, if_pos h, List.map_map]
    congr 1
    funext p
    by_cases hp : p.1 = w <;> simp [Function.comp, hp]
  · rw [bump, if_neg h, if_neg h]
    simp

theorem tally_keys (ws : List String) :
    ∀ counts : List (String × ℕ),
      (ws.foldl bump counts).map Prod.fst = dedupAppend (counts.map Prod.fst) ws := by
  induction ws with
  | nil => intro counts; simp [dedupAppend]
  | cons w ws ih =>
    intro counts
    rw [List.foldl_cons, ih (bump counts w), bump_keys, dedupAppend]
    by_cases h : w ∈ counts.map Prod.fst <;> simp [h]

theorem bump_counts_spec (counts : List (String × ℕ)) (base : String → ℕ) (w : String)
    (h1 : ∀ p ∈ counts, p.2 = base p.1)
    (h2 : ∀ x, x ∉ counts.map Prod.fst → base x = 0) :
    ∀ q ∈ bump counts w, q.2 = base q.1 + if q.1 = w then 1 else 0 := by
  intro q hq
  by_cases h : w ∈ counts.map Prod.fst
  · rw [bump, if_pos h] at hq
    obtain ⟨r, hr, hrq⟩ := List.mem_map.mp hq
    by_cases hrw : r.1 = w
    · rw [if_pos hrw] at hrq
      subst hrq
      simp [hrw, h1 r hr]
    · rw [if_neg hrw] at hrq
      subst hrq
      simp [hrw, h1 r hr]
  · rw [bump, if_neg h] at hq
    rcases List.mem_append.mp hq with hq | hq
    · have hqw : q.1 ≠ w := by
        intro he
        exact h (he ▸ List.mem_map_of_mem Prod.fst hq)
      simp [hqw, h1 q hq]
    · have hq1 : q = (w, 1) := by simpa using hq
      subst hq1
      simp [h2 w h]

theorem bump_not_mem_keys (counts : List (String × ℕ)) (w x : String)
    (hx : x ∉ (bump counts w).map Prod.fst) :
    x ∉ counts.map Prod.fst ∧ x ≠ w := by
  rw [bump_keys] at hx
  by_cases h : w ∈ counts.map Prod.fst
  · rw [if_pos h] at hx
    exact ⟨hx, fun he => hx (he ▸ h)⟩
  · rw [if_neg h] at hx
    rw [List.mem_append] at hx
    push_neg at hx
    refine ⟨hx.1, ?_⟩
    intro he
    exact hx.2 (by simp [he])

theorem tally_counts (ws : List String) :
    ∀ (counts : List (String × ℕ)) (base : String → ℕ),
      (∀ p ∈ counts, p.2 = base p.1) →
      (∀ x, x ∉ counts.map Prod.fst → base x = 0) →
      ∀ p ∈ ws.foldl bump counts, p.2 = base p.1 + ws.count p.1 := by
  induction ws with
  | nil => intro counts base h1 h2 p hp; simpa using h1 p hp
  | cons w ws ih =>
    intro counts base h1 h2 p hp
    rw [List.foldl_cons] at hp
    have hb1 : ∀ q ∈ bump counts w, q.2 = base q.1 + if q.1 = w then 1 else 0 :=
      bump_counts_spec counts base w h1 h2
    have hb2 : ∀ x, x ∉ (bump counts w).map Prod.fst →
        base x + (if x = w then 1 else 0) = 0 := by
      intro x hx
      obtain ⟨hx1, hx2⟩ := bump_not_mem_keys counts w x hx
      simp [hx2, h2 x hx1]
    have h3 : p.2 = base p.1 + (if p.1 = w then 1 else 0) + ws.count p.1 :=
      ih (bump counts w) (fun x => base x + if x = w then 1 else 0) hb1 hb2 p hp
    rw [h3, List.count_cons]
    by_cases hpw : p.1 = w
    · simp only [hpw, beq_self_eq_true, if_true]
      omega
    · have hbeq : (w == p.1) = false :=
        beq_eq_false_iff_ne.mpr (fun he => hpw he.symm)
      simp only [hbeq, if_neg hpw, Bool.false_eq_true, if_false]
      omega

/-- Entries of the tally built from `[]` carry exactly the token frequency. -/
theorem tally_count_eq (ws : List String) :
    ∀ p ∈ ws.foldl bump [], p.2 = ws.count p.1 := by
  intro p hp
  simpa using tally_counts ws [] (fun _ => 0) (by simp) (by simp) p hp

/-- Keys of the tally built from `[]` are the tokens in first-occurrence
order. -/
theorem tally_keys_eq (ws : List String) :
    (ws.foldl bump []).map Prod.fst = dedupAppend [] ws := by
  simpa using tally_keys ws []

theorem mem_dedupAppend (l : List String) :
    ∀ acc x, x ∈ dedupAppend acc l → x ∈ acc ∨ x ∈ l := by
  induction l with
  | nil => intro acc x h; left; simpa [dedupAppend] using h
  | cons c cs ih =>
    intro acc x h
    rw [dedupAppend] at h
    by_cases hc : c ∈ acc
    · rw [if_pos hc] at h
      rcases ih acc x h with h | h
      · exact Or.inl h
      · exact Or.inr (List.mem_cons_of_mem _ h)
    · rw [if_neg hc] at h
      rcases ih (acc ++ [c]) x h with h | h
      · rcases List.mem_append.mp h with h | h
        · exact Or.inl h
        · exact Or.inr (by simp at h; simp [h])
      · exact Or.inr (List.mem_cons_of_mem _ h)

/-- C8: the trending keywords number at most 10; their token frequencies are
non-increasing; keywords of any one frequency appear in first-occurrence
order (they form a sublist of the token stream deduplicated from the left,
which lists tokens in order of first occurrence — this is the stability of
the sort on ties); and every keyword is longer than 4 characters, purely
alphabetic, and not a stopword. -/
theorem c8_trending_keywords (results : List SearchResult) :
    (extract_trending_keywords results).length ≤ 10 ∧
      ((extract_trending_keywords results).map
          (fun w => (keptTokens results).count w)).Pairwise (fun m n => n ≤ m) ∧
      (∀ c : ℕ,
        ((extract_trending_keywords results).filter
            (fun w => (keptTokens results).count w = c)).Sublist
          (dedupAppend [] (keptTokens results))) ∧
      (∀ w ∈ extract_trending_keywords results,
        4 < w.length ∧ w.toList.all Char.isAlpha = true ∧ w ∉ stopwords) := by
  have hdef : extract_trending_keywords results =
      ((sortDesc (fun a b => a.2 ≤ b.2) ((keptTokens results).foldl bump [])).take 10).map
        Prod.fst := rfl
  have hcount : ∀ p ∈ sortDesc (fun a b : String × ℕ => a.2 ≤ b.2)
      ((keptTokens results).foldl bump []), p.2 = (keptTokens results).count p.1 := by
    intro p hp
    exact tally_count_eq (keptTokens results) p
      ((sortDesc_perm _ ((keptTokens results).foldl bump [])).mem_iff.mp hp)
  refine ⟨?_, ?_, ?_, ?_⟩
  · rw [hdef, List.length_map]
    exact List.length_take_le 10 _
  · rw [hdef, List.pairwise_map, List.pairwise_map]
    have hsorted := sortDesc_pairwise (fun a b : String × ℕ => a.2 ≤ b.2)
      (fun a b c hab hbc => by simp only [decide_eq_true_eq] at *; omega)
      (fun a b => by
        by_cases h : a.2 ≤ b.2
        · simp [h]
        · simp only [h, decide_eq_true_eq]
          right
          omega)
      ((keptTokens results).foldl bump [])
    have hconv : (sortDesc (fun a b : String × ℕ => a.2 ≤ b.2)
        ((keptTokens results).foldl bump [])).Pairwise
          (fun p q => (keptTokens results).count q.1 ≤ (keptTokens results).count p.1) := by
      refine hsorted.imp_of_mem ?_
      intro p q hp hq hpq
      rw [← hcount p hp, ← hcount q hq]
      simpa using hpq
    exact hconv.sublist (List.take_sublist 10 _)
  · intro c
    rw [hdef, List.filter_map]
    have h1 : (((sortDesc (fun a b : String × ℕ => a.2 ≤ b.2)
        ((keptTokens results).foldl bump [])).take 10).filter
          ((fun w => decide ((keptTokens results).count w = c)) ∘ Prod.fst)).Sublist
        ((sortDesc (fun a b : String × ℕ => a.2 ≤ b.2)
          ((keptTokens results).foldl bump [])).filter
            ((fun w => decide ((keptTokens results).count w = c)) ∘ Prod.fst)) :=
      (List.take_sublist 10 _).filter _
    have h2 : (sortDesc (fun a b : String × ℕ => a.2 ≤ b.2)
        ((keptTokens results).foldl bump [])).filter
          ((fun w => decide ((keptTokens results).count w = c)) ∘ Prod.fst) =
        (sortDesc (fun a b : String × ℕ => a.2 ≤ b.2)
          ((keptTokens results).foldl bump [])).filter (fun p => p.2 = c) := by
      refine List.filter_congr ?_
      intro p hp
      simp [Function.comp, hcount p hp]
    have h3 : (sortDesc (fun a b : String × ℕ => a.2 ≤ b.2)
        ((keptTokens results).foldl bump [])).filter (fun p => p.2 = c) =
        ((keptTokens results).foldl bump []).filter (fun p => p.2 = c) :=
      sortDesc_filter_key Prod.snd _ c
    have h4 : ((((keptTokens results).foldl bump []).filter
        (fun p => p.2 = c)).map Prod.fst).Sublist
        ((((keptTokens results).foldl bump [])).map Prod.fst) :=
      (List.filter_sublist _).map _
    rw [h2, h3] at h1
    rw [tally_keys_eq] at h4
    exact ((h1.map Prod.fst).trans h4)
  · intro w hw
    rw [hdef] at hw
    obtain ⟨p, hp, rfl⟩ := List.mem_map.mp hw
    have hp2 : p ∈ (keptTokens results).foldl bump [] :=
      (sortDesc_perm _ _).mem_iff.mp ((List.take_sublist 10 _).subset hp)
    have hkey : p.1 ∈ ((keptTokens results).foldl bump []).map Prod.fst :=
      List.mem_map_of_mem Prod.fst hp2
    rw [tally_keys_eq] at hkey
    have htok : p.1 ∈ keptTokens results := by
      rcases mem_dedupAppend (keptTokens results) [] p.1 hkey with h | h
      · simp at h
      · exact h
    have hkeep : keepToken p.1 = true := List.of_mem_filter htok
    rw [keepToken] at hkeep
    simp only [Bool.and_eq_true, decide_eq_true_eq] at hkeep
    exact ⟨hkeep.1.1, hkeep.1.2, hkeep.2⟩

/-- C3: a call to `research` produces exactly one of a research report or a
fallback report: `run` is a total function into the two-constructor
`RunResult`, so on every input — raising backends and a raising assembly
step included — exactly one of the two shapes is returned and no exception
escapes to the caller. -/
theorem c3_exactly_one_output (webBackend newsBackend : Backend)
    (netloc : String → Option String) (clock : Except String String)
    (topic : String) (max_results : ℕ) :
    ((run webBackend newsBackend netloc clock topic max_results).isReport = true ∨
      (run webBackend newsBackend netloc clock topic max_results).isFallback = true) ∧
      ¬ ((run webBackend newsBackend netloc clock topic max_results).isReport = true ∧
        (run webBackend newsBackend netloc clock topic max_results).isFallback = true) := by
  cases clock <;> simp [run, RunResult.isReport, RunResult.isFallback]

/-- C5 is false on the code: the fallback payload's `fallback_insights`
object carries a further field, `note` (line 254), beyond the claimed
`general_insights` and `trending_themes`, so the payload does not consist
exactly of the four claimed field paths. -/
theorem c5_counterexample :
    "note" ∈ (insightsToJson (generate_fallback_insights "ai")).objKeys ∧
      "note" ∉ (["error", "topic", "general_insights", "trending_themes"] : List String) ∧
      (insightsToJson (generate_fallback_insights "ai")).objKeys ≠
        ["general_insights", "trending_themes"] := by
  refine ⟨by decide, by decide, by decide⟩

/-- C5 amended: on the fallback path the payload consists exactly of
`error`, `topic`, and `fallback_insights` holding `general_insights` (three
templated strings embedding the topic), `trending_themes` equal to the fixed
five-element list, and additionally the fixed `note` string — no other
fields. -/
theorem c5_fallback_shape (webBackend newsBackend : Backend)
    (netloc : String → Option String) (topic : String) (max_results : ℕ) (e : String) :
    run webBackend newsBackend netloc (.error e) topic max_results =
      .fallback ("Web search failed: " ++ e) topic (generate_fallback_insights topic) ∧
      fallbackToJson ("Web search failed: " ++ e) topic (generate_fallback_insights topic) =
        .obj [("error", .str ("Web search failed: " ++ e)),
          ("topic", .str topic),
          ("fallback_insights", .obj
            [("general_insights", .arr
              [.str (topic ++ " is an emerging field with significant potential"),
               .str ("Industry adoption of " ++ topic ++ " is accelerating"),
               .str ("Key players are investing heavily in " ++ topic ++ " development")]),
             ("trending_themes", .arr
               [.str "innovation", .str "growth", .str "adoption",
                .str "technology", .str "market"]),
             ("note", .str "These are general insights due to search limitations. For accurate information, please verify with current sources.")])] :=
  ⟨rfl, rfl⟩

/-- C9: when every backend query raises (and the assembly itself does not),
the output is a research report — not a fallback — with zero web and news
counts, empty key findings and trending keywords, and a summary consisting
of the header line and the closing sentence only, with no bullet lines. -/
theorem c9_all_queries_fail (webBackend newsBackend : Backend)
    (netloc : String → Option String) (topic ts : String) (max_results : ℕ)
    (e1 e2 e3 : String)
    (h1 : webBackend (topic ++ " trends 2024") = .error e1)
    (_h2 : webBackend (topic ++ " expert analysis insights") = .error e2)
    (h3 : newsBackend (topic ++ " latest news 2024") = .error e3) :
    run webBackend newsBackend netloc (.ok ts) topic max_results =
      .report
        { topic := topic
          search_performed_at := ts
          web_count := 0
          web_results := []
          news_count := 0
          news_results := []
          key_findings := []
          trending_keywords := []
          summary := "Research Summary for '" ++ topic ++ "':\n" ++ "\n" ++
            ("\nThe research indicates " ++ topic ++
              " is an active area with substantial industry interest and ongoing developments.")
          sources := [] } := by
  have hw : search_web webBackend topic max_results = [] := by
    simp only [search_web, h1]
  have hn : search_news newsBackend topic = [] := by
    simp only [search_news, h3]
  simp only [run, hw, hn]
  rfl

theorem c9_witness :
    run failBackend failBackend (fun _ => none) (.ok "2024-01-01T00:00:00") "ai" 5 =
      .report
        { topic := "ai"
          search_performed_at := "2024-01-01T00:00:00"
          web_count := 0
          web_results := []
          news_count := 0
          news_results := []
          key_findings := []
          trending_keywords := []
          summary := "Research Summary for 'ai':\n" ++ "\n" ++
            ("\nThe research indicates ai is an active area with substantial industry interest and ongoing developments.")
          sources := [] } :=
  c9_all_queries_fail failBackend failBackend (fun _ => none) "ai"
    "2024-01-01T00:00:00" 5 "boom" "boom" "boom" rfl rfl rfl
